import Mathlib

/-!
Shallow embedding of the viam-appliedmotion ST motor driver
(package `st`: `comms.go`, `overrides.go`, `st.go`), together with
theorems settling the frozen claims about it.

Conventions of the embedding:
* Go `float64` values are modelled as `ℚ`; every operation the embedded code
  performs on them is a comparison, a negation, a division by a constant or a
  multiplication, so the rational model is exact for the properties stated here.
* Go strings are ASCII here; a string is its list of characters, and the byte
  index used by `strings.Index` coincides with the character index.
* Fallible Go operations return `Option`/`Except`; a Go slice expression that
  can be out of bounds is modelled by a partial slice operation, and a function
  that can hit such a slice returns a `PanicOr` value whose `.panic`
  constructor marks the run that aborts with a runtime panic.
* I/O is modelled by passing outcomes explicitly: the byte-level transport
  takes the outcome of the underlying `Write`/`Read`, and the orchestration
  layer runs against a scripted device that answers each successive command
  with a prescribed reply.
-/

/-! ### Small string/parsing helpers shared by the embedded code -/

/-- `strings.Index s (single character c)`: index of the first occurrence. -/
def strIndex (s : List Char) (c : Char) : Option Nat :=
  s.findIdx? (· = c)

/-- Value of one hexadecimal digit, as accepted by `encoding/hex` and by
`strconv.ParseUint(_, 16, _)` (both lowercase and uppercase letters). -/
def hexDigitVal (c : Char) : Option Nat :=
  if '0' ≤ c ∧ c ≤ '9' then some (c.toNat - 48)
  else if 'a' ≤ c ∧ c ≤ 'f' then some (c.toNat - 87)
  else if 'A' ≤ c ∧ c ≤ 'F' then some (c.toNat - 55)
  else none

/-- `strconv.ParseUint(s, 16, 32)`: a nonempty string of hex digits whose
value fits in 32 bits; no sign, no prefix (base is given explicitly). -/
def parseUintHex32 (s : List Char) : Option Nat :=
  match s.foldl (fun acc c => acc.bind fun n => (hexDigitVal c).map fun d => 16 * n + d)
      (if s = [] then none else some 0) with
  | none => none
  | some n => if n < 2 ^ 32 then some n else none

/-- `hex.DecodeString`: pairs of hex digits to bytes; odd length or a
non-hex character is an error (the Go caller discards the partial output). -/
def hexDecodeStr : List Char → Option (List Nat)
  | [] => some []
  | [_] => none
  | a :: b :: rest =>
    match hexDigitVal a, hexDigitVal b with
    | some x, some y => (hexDecodeStr rest).map fun t => (16 * x + y) :: t
    | _, _ => none

/-- Digits of a decimal numeral read as a `Nat`, or `none` when some
character is not a digit. -/
def decDigitsVal (s : List Char) : Option Nat :=
  s.foldl (fun acc c =>
    acc.bind fun n => if c.isDigit then some (10 * n + (c.toNat - 48)) else none) (some 0)

/-- `strconv.Atoi`: optional sign then a nonempty run of decimal digits. -/
def atoi (s : List Char) : Option Int :=
  match s with
  | '-' :: rest => if rest = [] then none else (decDigitsVal rest).map fun n => -(n : Int)
  | '+' :: rest => if rest = [] then none else (decDigitsVal rest).map fun n => (n : Int)
  | _ => if s = [] then none else (decDigitsVal s).map fun n => (n : Int)

/-- The subset of `strconv.ParseFloat` syntax the device actually produces:
optional sign, decimal digits with at most one point, at least one digit.
The value is exact here (`ℚ`), standing in for the nearest `float64`. -/
def parseFloatDec (s : List Char) : Option ℚ :=
  let (sign, body) : ℤ × List Char :=
    match s with
    | '-' :: rest => (-1, rest)
    | '+' :: rest => (1, rest)
    | _ => (1, s)
  let intPart := body.takeWhile (·.isDigit)
  let rest := body.dropWhile (·.isDigit)
  match rest with
  | [] =>
    if intPart = [] then none
    else (decDigitsVal intPart).map fun n => (sign * n : ℤ)
  | '.' :: frac =>
    if intPart = [] ∧ frac = [] then none
    else
      (decDigitsVal intPart).bind fun ip =>
        (decDigitsVal frac).map fun fp =>
          mkRat (sign * (ip * 10 ^ frac.length + fp)) (10 ^ frac.length)
  | _ => none

/-- `fmt.Sprintf("%.<prec>f", value)`: fixed-point decimal text with `prec`
fractional digits (magnitude rounded at the last digit). -/
def fmtFixed (prec : Nat) (q : ℚ) : String :=
  let scaled := (q.num.natAbs * 10 ^ prec + q.den / 2) / q.den
  let ipStr := toString (scaled / 10 ^ prec)
  let fpStr := toString (scaled % 10 ^ prec)
  let pad := String.mk (List.replicate (prec - fpStr.length) '0')
  (if q < 0 then "-" else "") ++ ipStr ++ "." ++ pad ++ fpStr

/-- `overrides.go`: `formatStore(name, value)` is `fmt.Sprintf("%s%.3f", ...)`. -/
def formatStore (name : String) (value : ℚ) : String :=
  name ++ fmtFixed 3 value

/-- ASCII bytes of a string. -/
def strBytes (s : String) : List Nat :=
  s.data.map Char.toNat

/-- Go string slicing `s[:hi]`, which panics when `hi > len(s)`. -/
def goSliceTo (s : String) (hi : Nat) : Option String :=
  if hi ≤ s.data.length then some (String.mk (s.data.take hi)) else none

/-- Go string slicing `s[lo:]`, which panics when `lo > len(s)`. -/
def goSliceFrom (s : String) (lo : Nat) : Option String :=
  if lo ≤ s.data.length then some (String.mk (s.data.drop lo)) else none

/-! ### Byte-level transport: `comms.go` -/

/-- Outcome of one underlying `Write` or `Read` call on the stream handle. -/
inductive IOOutcome (α : Type) where
  | ok : α → IOOutcome α
  | ioError : IOOutcome α
deriving DecidableEq

/-- Result of `comms.send`: the unframed payload text on success, or one of
the error cases `comms.send` distinguishes. -/
inductive SendResult where
  | ok : List Nat → SendResult
  | ioError : SendResult
  | shortWrite : SendResult
  | protocolError : SendResult
deriving DecidableEq

/-- The framed packet `comms.send` builds: `0x00 0x07 <payload> 0x0D`. -/
def framePacket (command : List Nat) : List Nat :=
  0 :: 7 :: (command ++ [13])

/-- The 1024-byte read buffer after a read that delivered `resp`:
the delivered bytes followed by the zero bytes `make` initialized. -/
def readBufferAfter (resp : List Nat) : List Nat :=
  resp ++ List.replicate (1024 - resp.length) 0

/-- `comms.send` (comms.go): build the framed packet, write it (a write error
or a short write is fatal), read once, validate the `0x00 0x07 ... 0x0D`
framing of the response, and return the inner payload. The first component
is the byte sequence handed to `Write`. -/
def comms.send (command : List Nat) (writeOutcome : IOOutcome Nat)
    (readOutcome : IOOutcome (List Nat)) : List Nat × SendResult :=
  (framePacket command,
    match writeOutcome with
    | .ioError => .ioError
    | .ok nWritten =>
      if nWritten ≠ 3 + command.length then .shortWrite
      else
        match readOutcome with
        | .ioError => .ioError
        | .ok resp =>
          let buf := readBufferAfter resp
          let nRead := resp.length
          if buf.getD 0 0 ≠ 0 ∨ buf.getD 1 0 ≠ 7 ∨ buf.getD (nRead - 1) 0 ≠ 13 then
            .protocolError
          else
            .ok ((buf.drop 2).take (nRead - 3)))

/-- Result of `comms.store`: `none` is Go's `nil` error. -/
inductive StoreErr where
  | sendFailed : StoreErr
  | nonAck : StoreErr
deriving DecidableEq

/-- `comms.store` (comms.go): format the value with `%.4f`, send, and accept
only the one-character acknowledgements `%` (executed) or `*` (queued). -/
def comms.store (command : String) (value : ℚ) (writeOutcome : IOOutcome Nat)
    (readOutcome : IOOutcome (List Nat)) : Option StoreErr :=
  match (comms.send (strBytes (command ++ fmtFixed 4 value)) writeOutcome readOutcome).2 with
  | .ok result =>
    if result ≠ strBytes "%" ∧ result ≠ strBytes "*" then some .nonAck else none
  | _ => some .sendFailed

/-! ### Limit clamping: `limits.Bound` (overrides.go, current revision) -/

/-- The `limits` struct: a named min/max pair; `0` means "no bound".
The name only feeds log messages and is omitted here. -/
structure limits where
  min : ℚ
  max : ℚ
deriving DecidableEq

/-- `limits.Bound`: return the value unchanged when it is `0`; otherwise clamp
to a nonzero `min`/`max` (the logger argument of the Go method only emits a
warning and does not affect the result). -/
def limits.Bound (l : limits) (value : ℚ) : ℚ :=
  if value = 0 then value
  else if l.min ≠ 0 ∧ value < l.min then l.min
  else if l.max ≠ 0 ∧ value > l.max then l.max
  else value

/-! ### The scripted device and payload-level transport

`comms.send` above settles what happens on the wire for one round trip.  The
motion-orchestration code only observes the unframed payload (or a transport
error), so it is run here against a scripted device: a list of pending
replies, consumed one per `send` call, together with the trace of command
strings sent so far. -/

/-- One scripted reply: a transport-level failure, or the unframed payload. -/
inductive Reply where
  | err : Reply
  | ok : String → Reply
deriving DecidableEq

/-- State of a scripted transport session. -/
structure CommState where
  script : List Reply
  trace : List String
deriving DecidableEq

/-- `comms.send` at payload level against the scripted device: the command is
recorded in the trace and the next scripted reply is consumed (`none` is a
transport error; an exhausted script means the device no longer answers). -/
def sendScripted (command : String) (st : CommState) : Option String × CommState :=
  match st.script with
  | [] => (none, ⟨[], st.trace ++ [command]⟩)
  | .err :: rest => (none, ⟨rest, st.trace ++ [command]⟩)
  | .ok r :: rest => (some r, ⟨rest, st.trace ++ [command]⟩)

/-- The error values the embedded driver code distinguishes; a Go `error` is
one of these, and a `multierr` aggregate is a `List GoErr` (`[]` is `nil`). -/
inductive GoErr where
  | transport : GoErr
  | malformedValue : GoErr
  | unexpectedResponse : GoErr
  | parseFloatErr : GoErr
  | nonAck : GoErr
  | noRespData : GoErr
  | badRespLength : GoErr
  | atoiErr : GoErr
  | hexErr : GoErr
  | statusLength : GoErr
  | cancelled : GoErr
deriving DecidableEq

/-- `comms.store` at payload level: send `command` formatted with `%.4f` and
require the `%` or `*` acknowledgement. -/
def storeScripted (command : String) (value : ℚ) (st : CommState) :
    Option GoErr × CommState :=
  match sendScripted (command ++ fmtFixed 4 value) st with
  | (none, st') => (some .transport, st')
  | (some result, st') =>
    if result ≠ "%" ∧ result ≠ "*" then (some .nonAck, st') else (none, st')

/-- A computation that either aborts with a Go runtime panic or produces a
value. -/
inductive PanicOr (α : Type) where
  | panic : PanicOr α
  | value : α → PanicOr α
deriving DecidableEq

/-! ### Status decoding: `getStatus`, `getBufferStatus` (st.go) -/

/-- The response-decoding part of `getStatus` (st.go): find `=`, cut at `{`
or at four characters, hex-decode, and require exactly 2 bytes.  The Go slice
`resp[startIndex+1 : endIndex]` panics unless
`startIndex+1 ≤ endIndex ≤ len(resp)`. -/
def getStatusParse (resp : List Char) : PanicOr (Except GoErr (List Nat)) :=
  match strIndex resp '=' with
  | none => .value (.error .noRespData)
  | some startIndex =>
    let endIndex := match strIndex resp '{' with
      | none => startIndex + 5
      | some e => e
    if startIndex + 1 ≤ endIndex ∧ endIndex ≤ resp.length then
      match hexDecodeStr ((resp.drop (startIndex + 1)).take (endIndex - (startIndex + 1))) with
      | none => .value (.error .hexErr)
      | some val =>
        if val.length ≠ 2 then .value (.error .statusLength) else .value (.ok val)
    else .panic

/-- The response-decoding part of `getBufferStatus` (st.go): find `=`, cut at
`{` or at two characters, guard the end index against the string length
(returning an error, unlike `getStatus`), and parse the decimal number.  The
slice can still panic when `{` precedes `=`. -/
def getBufferParse (resp : List Char) : PanicOr ((Int × List GoErr)) :=
  match strIndex resp '=' with
  | none => .value (-1, [.noRespData])
  | some startIndex =>
    let endIndex := match strIndex resp '{' with
      | none => startIndex + 3
      | some e => e
    if endIndex > resp.length then .value (0, [.badRespLength])
    else if startIndex + 1 ≤ endIndex then
      match atoi ((resp.drop (startIndex + 1)).take (endIndex - (startIndex + 1))) with
      | none => .value (0, [.atoiErr])
      | some n => .value (n, [])
    else .panic

/-- `getStatus` against the scripted device: send `SC` and decode. -/
def getStatusScripted (st : CommState) : PanicOr (Except GoErr (List Nat) × CommState) :=
  match sendScripted "SC" st with
  | (none, st') => .value (.error .transport, st')
  | (some resp, st') =>
    match getStatusParse resp.data with
    | .panic => .panic
    | .value r => .value (r, st')

/-- `getBufferStatus` against the scripted device: send `BS` and decode; on a
transport error Go returns `(-1, err)`. -/
def getBufferStatusScripted (st : CommState) : PanicOr ((Int × List GoErr) × CommState) :=
  match sendScripted "BS" st with
  | (none, st') => .value ((-1, [.transport]), st')
  | (some resp, st') =>
    match getBufferParse resp.data with
    | .panic => .panic
    | .value r => .value (r, st')

/-- `isBufferEmpty` (st.go): `b, e := getBufferStatus(...); return b == 63, e`. -/
def isBufferEmpty (st : CommState) : PanicOr ((Bool × List GoErr) × CommState) :=
  match getBufferStatusScripted st with
  | .panic => .panic
  | .value ((b, e), st') => .value ((decide (b = 63), e), st')

/-- The moving bit used by `IsMoving`: bit 4 of the second status byte. -/
def movingBit (status : List Nat) : Bool :=
  (status.getD 1 0 >>> 4) &&& 1 = 1

/-- `IsMoving` (st.go): decode the status word and read bit 4 of byte 1; the
redundant length re-check of the Go code is kept. -/
def IsMoving (st : CommState) : PanicOr ((Bool × List GoErr) × CommState) :=
  match getStatusScripted st with
  | .panic => .panic
  | .value (.error e, st') => .value ((false, [e]), st')
  | .value (.ok status, st') =>
    if status.length ≠ 2 then .value ((false, [.statusLength]), st')
    else .value ((movingBit status, []), st')

/-! ### Override save/restore: `overrides.go` -/

/-- A dynamic value found in the `extra` map: a `float64` or something else
(whose contents the code never inspects beyond the failed type assertion). -/
inductive ExtraVal where
  | float : ℚ → ExtraVal
  | nonFloat : ExtraVal
deriving DecidableEq

/-- The two `extra` keys the driver reads (`map[string]interface{}` restricted
to the keys `"acceleration"` and `"deceleration"`). -/
structure Extras where
  acceleration : Option ExtraVal
  deceleration : Option ExtraVal
deriving DecidableEq

/-- The override snapshot: the prior acceleration/deceleration, `0.0` being
the "not captured" sentinel. -/
structure oldAcceleration where
  acceleration : ℚ
  deceleration : ℚ
deriving DecidableEq

/-- `replaceValue` (overrides.go): send `command[:2]` (query the old value),
then the whole command (store the new one); return the first response.  On
either send error Go returns `("", err)`. -/
def replaceValue (command : String) (st : CommState) :
    (String × List GoErr) × CommState :=
  match sendScripted (String.mk (command.data.take 2)) st with
  | (none, st1) => (("", [.transport]), st1)
  | (some response, st1) =>
    match sendScripted command st1 with
    | (none, st2) => (("", [.transport]), st2)
    | (some _, st2) => ((response, []), st2)

/-- The `store` closure inside `setOverrides` (overrides.go) for one key:
look the key up, type-assert, `replaceValue` the formatted command, compare
`response[:3]` with `command + "="` — a Go slice that panics when the
response is shorter than 3 characters — and parse the old value.  Returns
the captured old value and the errors accumulated for this key. -/
def setOverridesStore (command : String) (entry : Option ExtraVal) (st : CommState) :
    PanicOr ((ℚ × List GoErr) × CommState) :=
  match entry with
  | none => .value ((0, []), st)
  | some .nonFloat => .value ((0, [.malformedValue]), st)
  | some (.float realVal) =>
    match replaceValue (formatStore command realVal) st with
    | ((response, sendErr), st1) =>
      match goSliceTo response 3 with
      | none => .panic
      | some head =>
        if head ≠ command ++ "=" then
          .value ((0, sendErr ++ [.unexpectedResponse]), st1)
        else
          match parseFloatDec (response.data.drop 3) with
          | none => .value ((0, sendErr ++ [.parseFloatErr]), st1)
          | some oldValue => .value ((oldValue, sendErr), st1)

/-- `setOverrides` (overrides.go): run the `store` closure for
`"acceleration"`/`AC` then `"deceleration"`/`DE`, aggregating errors. -/
def setOverrides (extra : Extras) (st : CommState) :
    PanicOr ((oldAcceleration × List GoErr) × CommState) :=
  match setOverridesStore "AC" extra.acceleration st with
  | .panic => .panic
  | .value ((acc, e1), st1) =>
    match setOverridesStore "DE" extra.deceleration st1 with
    | .panic => .panic
    | .value ((dec, e2), st2) =>
      .value ((⟨acc, dec⟩, e1 ++ e2), st2)

/-- The `restore` closure inside `oldAcceleration.restore` for one field:
skip the `0.0` sentinel, otherwise write the value back with a plain send. -/
def restoreField (command : String) (value : ℚ) (st : CommState) :
    List GoErr × CommState :=
  if value = 0 then ([], st)
  else
    match sendScripted (formatStore command value) st with
    | (none, st1) => ([.transport], st1)
    | (some _, st1) => ([], st1)

/-- `oldAcceleration.restore` (overrides.go): write back both captured
values, aggregating the two errors with `multierr.Combine`. -/
def oldAcceleration.restore (os : oldAcceleration) (st : CommState) :
    List GoErr × CommState :=
  match restoreField "AC" os.acceleration st with
  | (e1, st1) =>
    match restoreField "DE" os.deceleration st1 with
    | (e2, st2) => (e1 ++ e2, st2)

/-! ### Motion controller: `st.go` -/

/-- The fields of the `st` struct that the embedded operations read. -/
structure Motor where
  stepsPerRev : ℤ
  accelLimits : limits
  decelLimits : limits
  rpmLimits : limits
deriving DecidableEq

/-- Go's `int64(f)` on a real value: truncation toward zero (the rational is
`num/den` with positive denominator, so truncating division of the numerator
by the denominator is exactly Go's conversion). -/
def ratTrunc (q : ℚ) : ℤ :=
  q.num.tdiv q.den

/-- Reinterpret an unsigned 32-bit value as Go's `int32` (two's complement). -/
def toInt32 (u : Nat) : ℤ :=
  if u < 2 ^ 31 then (u : ℤ) else (u : ℤ) - 2 ^ 32

/-- The response-decoding part of `Position` (st.go): take everything after
`=`, parse it as an unsigned 32-bit hex value, reinterpret as signed, and
divide by steps-per-revolution. -/
def positionParse (resp : List Char) (stepsPerRev : ℤ) : Except GoErr ℚ :=
  match strIndex resp '=' with
  | none => .error .noRespData
  | some startIndex =>
    match parseUintHex32 (resp.drop (startIndex + 1)) with
    | none => .error .parseFloatErr
    | some val => .ok ((toInt32 val : ℚ) / (stepsPerRev : ℚ))

/-- `Position` (st.go) against the scripted device: send `IP` and decode. -/
def Position (m : Motor) (st : CommState) : Except GoErr ℚ × CommState :=
  match sendScripted "IP" st with
  | (none, st') => (.error .transport, st')
  | (some resp, st') => (positionParse resp.data m.stepsPerRev, st')

/-- `sendScripted` leaves the script alone or consumes its head. -/
theorem sendScripted_script_le (command : String) (st : CommState) :
    ((sendScripted command st).2.script.length ≤ st.script.length) := by
  unfold sendScripted
  cases st.script with
  | nil => simp
  | cons r rest => cases r <;> simp

/-- A successful `sendScripted` consumed one scripted reply. -/
theorem sendScripted_some_script_lt (command : String) (st : CommState)
    (r : String) (st' : CommState) (h : sendScripted command st = (some r, st')) :
    st'.script.length < st.script.length := by
  unfold sendScripted at h
  cases hs : st.script with
  | nil => rw [hs] at h; simp at h
  | cons hd rest =>
    rw [hs] at h
    cases hd with
    | err => simp at h
    | ok s => simp at h; rw [← h.2]; simp [hs]

/-- An error-free `isBufferEmpty` consumed scripted replies. -/
theorem isBufferEmpty_ok_script_lt (st : CommState) (b : Bool) (st' : CommState)
    (h : isBufferEmpty st = .value ((b, []), st')) :
    st'.script.length < st.script.length := by
  unfold isBufferEmpty getBufferStatusScripted at h
  cases hs : sendScripted "BS" st with
  | mk ro st1 =>
    cases ro with
    | none => rw [hs] at h; simp at h
    | some resp =>
      rw [hs] at h
      dsimp only at h
      cases hp : getBufferParse resp.data with
      | panic => rw [hp] at h; simp at h
      | value v =>
        rw [hp] at h
        obtain ⟨n, errs⟩ := v
        simp only [PanicOr.value.injEq, Prod.mk.injEq] at h
        obtain ⟨⟨hb, he⟩, hst⟩ := h
        subst hst
        exact sendScripted_some_script_lt _ _ _ _ hs

/-- An error-free `IsMoving` consumed scripted replies. -/
theorem IsMoving_ok_script_lt (st : CommState) (b : Bool) (st' : CommState)
    (h : IsMoving st = .value ((b, []), st')) :
    st'.script.length < st.script.length := by
  unfold IsMoving getStatusScripted at h
  cases hs : sendScripted "SC" st with
  | mk ro st1 =>
    cases ro with
    | none => rw [hs] at h; simp at h
    | some resp =>
      rw [hs] at h
      dsimp only at h
      cases hp : getStatusParse resp.data with
      | panic => rw [hp] at h; simp at h
      | value v =>
        rw [hp] at h
        cases v with
        | error e => simp at h
        | ok status =>
          by_cases hl : status.length = 2
          · simp only [hl, ne_eq, not_true_eq_false, if_neg, if_false,
              PanicOr.value.injEq, Prod.mk.injEq] at h
            obtain ⟨⟨hb, he⟩, hst⟩ := h
            subst hst
            exact sendScripted_some_script_lt _ _ _ _ hs
          · simp [hl] at h

/-- `waitForMoveCommandToComplete` (st.go) against the scripted device.
`cancelled k` tells whether the caller's context is already done when
iteration `k` reaches its `select`; on cancellation `Stop` sends `SK` on a
background context (its result is discarded) and the loop returns the
context error.  Otherwise the loop polls `isBufferEmpty` and then `IsMoving`
(propagating their errors) and returns `nil` exactly when the buffer is
empty and the motor is not moving. -/
def waitForMoveCommandToComplete (cancelled : Nat → Bool) (k : Nat) (st : CommState) :
    PanicOr (List GoErr × CommState) :=
  if cancelled k then
    .value ([.cancelled], (sendScripted "SK" st).2)
  else
    match h1 : isBufferEmpty st with
    | .panic => .panic
    | .value ((_, e :: es), st1) => .value (e :: es, st1)
    | .value ((bufferIsEmpty, []), st1) =>
      match h2 : IsMoving st1 with
      | .panic => .panic
      | .value ((_, e :: es), st2) => .value (e :: es, st2)
      | .value ((isMoving, []), st2) =>
        if bufferIsEmpty ∧ ¬ isMoving then .value ([], st2)
        else waitForMoveCommandToComplete cancelled (k + 1) st2
termination_by st.script.length
decreasing_by
  have hb := isBufferEmpty_ok_script_lt st _ _ h1
  have hm := IsMoving_ok_script_lt st1 _ _ h2
  omega

/-- `stopContinuousMovement` (st.go): send `SJ`, keep only the error. -/
def stopContinuousMovement (st : CommState) : Option GoErr × CommState :=
  match sendScripted "SJ" st with
  | (none, st1) => (some .transport, st1)
  | (some _, st1) => (none, st1)

/-- The two `extra`-bounding blocks at the top of `configuredMove`: a
`float64` under the key is replaced by its bounded version; other values and
absent keys are left alone. -/
def boundExtraVal (l : limits) (entry : Option ExtraVal) : Option ExtraVal :=
  match entry with
  | some (.float v) => some (.float (l.Bound v))
  | e => e

/-- Both bounding blocks of `configuredMove` applied to the `extra` map. -/
def boundExtras (m : Motor) (extra : Extras) : Extras :=
  ⟨boundExtraVal m.accelLimits extra.acceleration,
   boundExtraVal m.decelLimits extra.deceleration⟩

/-- `configuredMove` (st.go): stop continuous movement, clamp the override
values inside `extra`, apply overrides, clamp rpm, send the `DI` distance,
store the `VE` velocity (rev/s), send the move command, then wait for
completion and — only on this final path — combine the wait result with
`restore` via `multierr.Combine`.  The early `return err` statements on the
`DI`, `VE` and `FL`/`FP` sends skip `restore`, exactly as in the source. -/
def configuredMove (m : Motor) (command : String) (positionRevolutions rpm : ℚ)
    (extra : Extras) (cancelled : Nat → Bool) (st : CommState) :
    PanicOr (List GoErr × CommState) :=
  match stopContinuousMovement st with
  | (some e, st1) => .value ([e], st1)
  | (none, st1) =>
    match setOverrides (boundExtras m extra) st1 with
    | .panic => .panic
    | .value ((_, e :: es), st2) => .value (e :: es, st2)
    | .value ((oldAccel, []), st2) =>
      let rpm1 := m.rpmLimits.Bound rpm
      let revSec := rpm1 / 60
      let positionSteps := ratTrunc (positionRevolutions * (m.stepsPerRev : ℚ))
      match sendScripted ("DI" ++ toString positionSteps) st2 with
      | (none, st3) => .value ([.transport], st3)
      | (some _, st3) =>
        match storeScripted "VE" revSec st3 with
        | (some e, st4) => .value ([e], st4)
        | (none, st4) =>
          match sendScripted command st4 with
          | (none, st5) => .value ([.transport], st5)
          | (some _, st5) =>
            match waitForMoveCommandToComplete cancelled 0 st5 with
            | .panic => .panic
            | .value (waitErrs, st6) =>
              match oldAccel.restore st6 with
              | (restoreErrs, st7) => .value (waitErrs ++ restoreErrs, st7)

/-- `GoFor` (st.go): a negative rpm flips both the rpm and the distance, so
the speed sent to the controller is positive; then run the `FL` move. -/
def GoFor (m : Motor) (rpm positionRevolutions : ℚ) (extra : Extras)
    (cancelled : Nat → Bool) (st : CommState) : PanicOr (List GoErr × CommState) :=
  if rpm < 0 then
    configuredMove m "FL" (-positionRevolutions) (-rpm) extra cancelled st
  else
    configuredMove m "FL" positionRevolutions rpm extra cancelled st

/-- `GoTo` (st.go): run the `FP` move at the requested rpm and target. -/
def GoTo (m : Motor) (rpm positionRevolutions : ℚ) (extra : Extras)
    (cancelled : Nat → Bool) (st : CommState) : PanicOr (List GoErr × CommState) :=
  configuredMove m "FP" positionRevolutions rpm extra cancelled st

/-! ### Claim C2: the clamping cases of `limits.Bound` -/

/-- Claim C2 exactly as stated, at one limits instance and one value, its
cases read in order: `Bound 0 = 0`; if `min > 0` and `v < min` then `min`;
if `max > 0` and `v > max` then `max`; in all other cases `v`. -/
def boundClaimC2 (l : limits) (v : ℚ) : Prop :=
  (v = 0 → l.Bound v = 0) ∧
  (v ≠ 0 → 0 < l.min ∧ v < l.min → l.Bound v = l.min) ∧
  (v ≠ 0 → ¬(0 < l.min ∧ v < l.min) → 0 < l.max ∧ v > l.max → l.Bound v = l.max) ∧
  (v ≠ 0 → ¬(0 < l.min ∧ v < l.min) → ¬(0 < l.max ∧ v > l.max) → l.Bound v = v)

/-- C2 fails on the code as stated: `Bound` clamps against any nonzero
bound, not only a positive one.  With `min = -1`, `max = 0` and `v = -2`
none of the claim's clamping guards applies, so the claim requires
`Bound (-2) = -2`, but the code returns the nonzero minimum `-1`. -/
theorem boundClaimC2_counterexample :
    ¬ boundClaimC2 ⟨-1, 0⟩ (-2) ∧ limits.Bound ⟨-1, 0⟩ (-2) = -1 := by
  constructor
  · intro h
    have h4 := h.2.2.2 (by norm_num) (by norm_num) (by norm_num)
    rw [limits.Bound] at h4
    norm_num at h4
  · rw [limits.Bound]
    norm_num

/-- C2 (amended): the same case analysis with the guards the code uses —
any nonzero `min`/`max` clamps, not only a positive one.  `Bound` is a pure
function of the limits and the value (the logger only emits a warning). -/
theorem limits_Bound_cases (l : limits) (v : ℚ) :
    (v = 0 → l.Bound v = 0) ∧
    (v ≠ 0 → l.min ≠ 0 ∧ v < l.min → l.Bound v = l.min) ∧
    (v ≠ 0 → ¬(l.min ≠ 0 ∧ v < l.min) → l.max ≠ 0 ∧ v > l.max → l.Bound v = l.max) ∧
    (v ≠ 0 → ¬(l.min ≠ 0 ∧ v < l.min) → ¬(l.max ≠ 0 ∧ v > l.max) → l.Bound v = v) := by
  refine ⟨fun h0 => ?_, fun h0 hmin => ?_, fun h0 hnmin hmax => ?_,
    fun h0 hnmin hnmax => ?_⟩
  · rw [limits.Bound, if_pos h0]; exact h0
  · rw [limits.Bound, if_neg h0, if_pos hmin]
  · rw [limits.Bound, if_neg h0, if_neg hnmin, if_pos hmax]
  · rw [limits.Bound, if_neg h0, if_neg hnmin, if_neg hnmax]

/-- Witness for C2's amended theorem at a concrete clamp: with limits
`(2, 10)` a requested `1` is raised to the minimum `2`. -/
theorem limits_Bound_cases_witness : limits.Bound ⟨2, 10⟩ 1 = 2 :=
  (limits_Bound_cases ⟨2, 10⟩ 1).2.1 (by norm_num) (by constructor <;> norm_num)

/-! ### Claim C4: wire framing of `comms.send` -/

/-- Reading the zero padding of the receive buffer gives `0`. -/
theorem readBufferAfter_getD_pad (resp : List Nat) (i : Nat)
    (hlo : resp.length ≤ i) (hhi : i < 1024) :
    (readBufferAfter resp).getD i 0 = 0 := by
  unfold readBufferAfter
  rw [List.getD_append_right _ _ _ _ hlo]
  rcases Nat.lt_or_ge (i - resp.length) (1024 - resp.length) with hc | hc
  · rw [List.getD_eq_getElem _ _ (by simpa using hc)]
    simp
  · rw [List.getD_eq_default _ _ (by simpa using hc)]

/-- Reading a delivered byte of the receive buffer gives that byte. -/
theorem readBufferAfter_getD_data (resp : List Nat) (i : Nat)
    (h : i < resp.length) :
    (readBufferAfter resp).getD i 0 = resp.getD i 0 :=
  List.getD_append _ _ _ _ h

/-- On a framed response `0x00 0x07 mid 0x0D` (and a full write), `comms.send`
returns exactly the payload `mid`. -/
theorem comms_send_ok_of_framed (command mid : List Nat)
    (h1024 : mid.length + 3 ≤ 1024) :
    (comms.send command (.ok (3 + command.length)) (.ok (0 :: 7 :: (mid ++ [13])))).2 =
      .ok mid := by
  have hlen : (0 :: 7 :: (mid ++ [13])).length = mid.length + 3 := by simp
  have hlast : (readBufferAfter (0 :: 7 :: (mid ++ [13]))).getD
      ((0 :: 7 :: (mid ++ [13])).length - 1) 0 = 13 := by
    rw [readBufferAfter_getD_data _ _ (by omega), hlen]
    rw [show mid.length + 3 - 1 = mid.length + 1 + 1 by omega]
    rw [List.getD_cons_succ, List.getD_cons_succ,
      List.getD_append_right _ _ _ _ (le_refl _)]
    simp
  have h0 : (readBufferAfter (0 :: 7 :: (mid ++ [13]))).getD 0 0 = 0 := by
    rw [readBufferAfter_getD_data _ _ (by simp), List.getD_cons_zero]
  have h1 : (readBufferAfter (0 :: 7 :: (mid ++ [13]))).getD 1 0 = 7 := by
    rw [readBufferAfter_getD_data _ _ (by simp), List.getD_cons_succ, List.getD_cons_zero]
  have hdrop : ((readBufferAfter (0 :: 7 :: (mid ++ [13]))).drop 2).take
      ((0 :: 7 :: (mid ++ [13])).length - 3) = mid := by
    unfold readBufferAfter
    rw [List.cons_append, List.cons_append, List.drop_succ_cons, List.drop_succ_cons,
      List.drop_zero, hlen, Nat.add_sub_cancel, List.append_assoc]
    exact List.take_left mid _
  unfold comms.send
  simp only []
  rw [if_neg (by omega)]
  have hcheck : ¬ ((readBufferAfter (0 :: 7 :: (mid ++ [13]))).getD 0 0 ≠ 0 ∨
      (readBufferAfter (0 :: 7 :: (mid ++ [13]))).getD 1 0 ≠ 7 ∨
      (readBufferAfter (0 :: 7 :: (mid ++ [13]))).getD
        ((0 :: 7 :: (mid ++ [13])).length - 1) 0 ≠ 13) := by
    push_neg
    exact ⟨h0, h1, hlast⟩
  rw [if_neg hcheck, hdrop]

/-- An unframed read (missing preamble or missing trailing CR) makes
`comms.send` fail with a protocol error. -/
theorem comms_send_protocolError_of_unframed (command resp : List Nat)
    (h1024 : resp.length ≤ 1024)
    (h : ¬ ∃ mid, resp = 0 :: 7 :: (mid ++ [13])) :
    (comms.send command (.ok (3 + command.length)) (.ok resp)).2 = .protocolError := by
  unfold comms.send
  simp only []
  rw [if_neg (by omega)]
  have hcheck : (readBufferAfter resp).getD 0 0 ≠ 0 ∨
      (readBufferAfter resp).getD 1 0 ≠ 7 ∨
      (readBufferAfter resp).getD (resp.length - 1) 0 ≠ 13 := by
    by_contra hc
    push_neg at hc
    obtain ⟨h0, h1, h2⟩ := hc
    apply h
    match resp, h1024 with
    | [], h1024 =>
      rw [readBufferAfter_getD_pad [] 1 (by simp) (by norm_num)] at h1
      exact absurd h1 (by norm_num)
    | [a], h1024 =>
      rw [readBufferAfter_getD_pad [a] 1 (by simp) (by norm_num)] at h1
      exact absurd h1 (by norm_num)
    | [a, b], h1024 =>
      rw [readBufferAfter_getD_data _ _ (by simp), List.getD_cons_succ,
        List.getD_cons_zero] at h1
      rw [show ([a, b] : List Nat).length - 1 = 1 by simp] at h2
      rw [readBufferAfter_getD_data _ _ (by simp), List.getD_cons_succ,
        List.getD_cons_zero] at h2
      rw [h1] at h2
      exact absurd h2 (by norm_num)
    | a :: b :: c :: rest, h1024 =>
      rw [readBufferAfter_getD_data _ _ (by simp), List.getD_cons_zero] at h0
      rw [readBufferAfter_getD_data _ _ (by simp), List.getD_cons_succ,
        List.getD_cons_zero] at h1
      have hne : (c :: rest : List Nat) ≠ [] := by simp
      have hlast : (c :: rest).getLast hne = 13 := by
        rw [readBufferAfter_getD_data _ _ (by simp only [List.length_cons]; omega)] at h2
        rw [show (a :: b :: c :: rest).length - 1 = (c :: rest).length - 1 + 1 + 1 by
          simp only [List.length_cons]; omega] at h2
        rw [List.getD_cons_succ, List.getD_cons_succ] at h2
        rw [List.getD_eq_getElem _ _ (by simp only [List.length_cons]; omega)] at h2
        rw [List.getLast_eq_getElem]
        exact h2
      refine ⟨(c :: rest).dropLast, ?_⟩
      have hsplit := List.dropLast_append_getLast hne
      rw [hlast] at hsplit
      rw [h0, h1]
      exact congrArg (fun t => 0 :: 7 :: t) hsplit.symm
  rw [if_pos hcheck]

/-- C4: `comms.send` writes exactly the framed packet
`0x00 0x07 <command> 0x0D`; a write of fewer bytes than the framed length is
an error; with the write complete, the call succeeds exactly on responses
framed as `0x00 0x07 <payload> 0x0D` (returning exactly the payload between
the preamble and the trailing CR) and fails with a protocol error on every
other response. -/
theorem comms_send_framing (command : List Nat) (w : IOOutcome Nat)
    (r : IOOutcome (List Nat)) :
    ((comms.send command w r).1 = 0 :: 7 :: (command ++ [13])) ∧
    (∀ n, n < 3 + command.length →
      (comms.send command (.ok n) r).2 = .shortWrite) ∧
    (∀ resp mid, resp.length ≤ 1024 → resp = 0 :: 7 :: (mid ++ [13]) →
      (comms.send command (.ok (3 + command.length)) (.ok resp)).2 = .ok mid) ∧
    (∀ resp, resp.length ≤ 1024 →
      ((comms.send command (.ok (3 + command.length)) (.ok resp)).2 = .protocolError ↔
        ¬ ∃ mid, resp = 0 :: 7 :: (mid ++ [13]))) := by
  refine ⟨rfl, fun n hn => ?_, fun resp mid h1024 hresp => ?_, fun resp h1024 => ?_⟩
  · unfold comms.send
    simp only []
    rw [if_pos (by omega)]
  · subst hresp
    have : mid.length + 3 ≤ 1024 := by simpa using h1024
    exact comms_send_ok_of_framed command mid this
  · constructor
    · intro hpe hex
      obtain ⟨mid, hmid⟩ := hex
      subst hmid
      have : mid.length + 3 ≤ 1024 := by simpa using h1024
      rw [comms_send_ok_of_framed command mid this] at hpe
      exact absurd hpe (by simp)
    · exact comms_send_protocolError_of_unframed command resp h1024

/-- Witness for C4 at a concrete command and response: sending `RV` writes
`[0, 7, 82, 86, 13]`; a 4-byte write is a short-write error; the framed
response `[0, 7, 54, 51, 13]` yields the payload `[54, 51]`; the unframed
response `[54, 51]` is a protocol error. -/
theorem comms_send_framing_witness :
    (comms.send [82, 86] (.ok 5) (.ok [0, 7, 54, 51, 13])).1 = [0, 7, 82, 86, 13] ∧
    (comms.send [82, 86] (.ok 4) (.ok [0, 7, 54, 51, 13])).2 = .shortWrite ∧
    (comms.send [82, 86] (.ok 5) (.ok [0, 7, 54, 51, 13])).2 = .ok [54, 51] ∧
    (comms.send [82, 86] (.ok 5) (.ok [54, 51])).2 = .protocolError := by
  have h := comms_send_framing [82, 86] (.ok 5) (.ok [0, 7, 54, 51, 13])
  refine ⟨h.1, ?_, ?_, ?_⟩
  · have := h.2.1 4 (by norm_num)
    simpa using this
  · have := h.2.2.1 [0, 7, 54, 51, 13] [54, 51] (by norm_num) (by norm_num)
    simpa using this
  · have hne : ¬ ∃ mid, ([54, 51] : List Nat) = 0 :: 7 :: (mid ++ [13]) := by
      rintro ⟨mid, hmid⟩
      simp at hmid
    have := (h.2.2.2 [54, 51] (by norm_num)).mpr hne
    simpa using this

/-! ### Claim C7: the acknowledgement discipline of `comms.store` -/

/-- C7: `comms.store` sends the command with the value formatted to fixed
(4-digit) decimal precision through `comms.send`, returns success exactly
when the response payload is `%` or `*`, and returns an error on every other
successfully received response. -/
theorem comms_store_ack (command : String) (value : ℚ) (w : IOOutcome Nat)
    (r : IOOutcome (List Nat)) :
    ((comms.send (strBytes (command ++ fmtFixed 4 value)) w r).1
      = 0 :: 7 :: (strBytes (command ++ fmtFixed 4 value) ++ [13])) ∧
    (comms.store command value w r = none ↔
      ((comms.send (strBytes (command ++ fmtFixed 4 value)) w r).2 = .ok (strBytes "%") ∨
       (comms.send (strBytes (command ++ fmtFixed 4 value)) w r).2 = .ok (strBytes "*"))) ∧
    (∀ payload,
      (comms.send (strBytes (command ++ fmtFixed 4 value)) w r).2 = .ok payload →
      payload ≠ strBytes "%" → payload ≠ strBytes "*" →
      comms.store command value w r = some .nonAck) := by
  refine ⟨rfl, ?_, ?_⟩
  · constructor
    · intro hnone
      unfold comms.store at hnone
      cases hs : (comms.send (strBytes (command ++ fmtFixed 4 value)) w r).2 with
      | ok payload =>
        rw [hs] at hnone
        dsimp only at hnone
        by_cases hp : payload ≠ strBytes "%" ∧ payload ≠ strBytes "*"
        · rw [if_pos hp] at hnone
          exact absurd hnone (by simp)
        · push_neg at hp
          by_cases h1 : payload = strBytes "%"
          · left; rw [h1]
          · right; rw [hp h1]
      | ioError => rw [hs] at hnone; exact absurd hnone (by simp)
      | shortWrite => rw [hs] at hnone; exact absurd hnone (by simp)
      | protocolError => rw [hs] at hnone; exact absurd hnone (by simp)
    · intro hor
      unfold comms.store
      rcases hor with h | h <;> rw [h] <;> dsimp only
      · rw [if_neg (by simp)]
      · rw [if_neg (by simp)]
  · intro payload hok h1 h2
    unfold comms.store
    rw [hok]
    dsimp only
    rw [if_pos ⟨h1, h2⟩]

/-- Witness for C7 at `VE10.0000`: a full write and the framed `%` response
give success; a framed `X` response gives the non-acknowledgement error. -/
theorem comms_store_ack_witness :
    comms.store "VE" 10 (.ok 12) (.ok [0, 7, 37, 13]) = none ∧
    comms.store "VE" 10 (.ok 12) (.ok [0, 7, 88, 13]) = some .nonAck := by
  constructor
  · exact (comms_store_ack "VE" 10 (.ok 12) (.ok [0, 7, 37, 13])).2.1.mpr
      (Or.inl (by decide))
  · exact (comms_store_ack "VE" 10 (.ok 12) (.ok [0, 7, 88, 13])).2.2 [88]
      (by decide) (by decide) (by decide)

/-! ### Claim C8: write-back behaviour of `oldAcceleration.restore` -/

/-- C8: `restore` issues a write-back for each non-sentinel field and skips
fields equal to `0.0` (the commands appended to the trace are exactly the
non-sentinel write-backs, whatever the device answers — in particular the
`DE` write-back is attempted even when the `AC` one fails), and the errors
of both attempts are concatenated rather than short-circuited: when both
fields are captured and both sends fail, both transport errors are
returned. -/
theorem restore_writes_back_nonSentinel (acc dec : ℚ) (st : CommState) :
    ((oldAcceleration.restore ⟨acc, dec⟩ st).2.trace =
      st.trace ++ (if acc = 0 then [] else [formatStore "AC" acc])
               ++ (if dec = 0 then [] else [formatStore "DE" dec])) ∧
    ((oldAcceleration.restore ⟨acc, dec⟩ st).1 =
      (restoreField "AC" acc st).1 ++ (restoreField "DE" dec (restoreField "AC" acc st).2).1) ∧
    (acc ≠ 0 → dec ≠ 0 → ∀ rest tr,
      (oldAcceleration.restore ⟨acc, dec⟩ ⟨.err :: .err :: rest, tr⟩).1 =
        [.transport, .transport]) := by
  have htrace : ∀ (command : String) (v : ℚ) (s : CommState),
      (restoreField command v s).2.trace =
        s.trace ++ (if v = 0 then [] else [formatStore command v]) := by
    intro command v s
    unfold restoreField
    by_cases hv : v = 0
    · rw [if_pos hv, if_pos hv]
      simp
    · rw [if_neg hv, if_neg hv]
      cases hs : sendScripted (formatStore command v) s with
      | mk ro s1 =>
        have : s1.trace = s.trace ++ [formatStore command v] := by
          unfold sendScripted at hs
          cases hsc : s.script with
          | nil => rw [hsc] at hs; injection hs with h1 h2; rw [← h2]
          | cons hd rest =>
            rw [hsc] at hs
            cases hd with
            | err => injection hs with h1 h2; rw [← h2]
            | ok rr => injection hs with h1 h2; rw [← h2]
        cases ro with
        | none => simpa using this
        | some rr => simpa using this
  refine ⟨?_, ?_, ?_⟩
  · unfold oldAcceleration.restore
    rw [htrace "DE" dec _, htrace "AC" acc st]
  · unfold oldAcceleration.restore
    rfl
  · intro hacc hdec rest tr
    unfold oldAcceleration.restore restoreField
    simp only [if_neg hacc, if_neg hdec, sendScripted]
    rfl

/-- Witness for C8: with captured values `100`/`200` and a device that fails
both sends, both write-backs are attempted and both errors are returned. -/
theorem restore_writes_back_nonSentinel_witness :
    (oldAcceleration.restore ⟨100, 200⟩ ⟨[.err, .err], []⟩).1 =
      [.transport, .transport] :=
  (restore_writes_back_nonSentinel 100 200 ⟨[.err, .err], []⟩).2.2
    (by norm_num) (by norm_num) [] []

/-! ### Claim C9: the out-of-bounds slice in `setOverrides` -/

/-- C9: when the `extra` map carries a `float64` under `"acceleration"` or
`"deceleration"` and the underlying send fails (so `replaceValue` returns
`""`) or the device's response is shorter than 3 characters, `setOverrides`
evaluates `response[:3]` out of bounds — a runtime panic — instead of
returning the aggregated error with the partial snapshot. -/
theorem setOverrides_short_response_panics (q : ℚ) (rest : List Reply) (tr : List String) :
    (∀ dec, setOverrides ⟨some (.float q), dec⟩ ⟨.err :: rest, tr⟩ = .panic) ∧
    (∀ dec r reply2, r.data.length < 3 →
      setOverrides ⟨some (.float q), dec⟩ ⟨.ok r :: reply2 :: rest, tr⟩ = .panic) ∧
    (setOverrides ⟨none, some (.float q)⟩ ⟨.err :: rest, tr⟩ = .panic) ∧
    (∀ r reply2, r.data.length < 3 →
      setOverrides ⟨none, some (.float q)⟩ ⟨.ok r :: reply2 :: rest, tr⟩ = .panic) := by
  have hempty : goSliceTo "" 3 = none := by decide
  refine ⟨fun dec => ?_, fun dec r reply2 hr => ?_, ?_, fun r reply2 hr => ?_⟩
  · unfold setOverrides setOverridesStore replaceValue
    simp only [sendScripted, hempty]
  · unfold setOverrides setOverridesStore replaceValue
    cases reply2 with
    | err => simp only [sendScripted, hempty]
    | ok s =>
      have hslice : goSliceTo r 3 = none := by
        unfold goSliceTo
        rw [if_neg (by omega)]
      simp only [sendScripted, hslice]
  · unfold setOverrides setOverridesStore replaceValue
    simp only [sendScripted, hempty]
  · unfold setOverrides setOverridesStore replaceValue
    cases reply2 with
    | err => simp only [sendScripted, hempty]
    | ok s =>
      have hslice : goSliceTo r 3 = none := by
        unfold goSliceTo
        rw [if_neg (by omega)]
      simp only [sendScripted, hslice]

/-- Witness for C9: an override request for acceleration `100` against a
device whose first send fails, and against one that answers with the 2-byte
response `AC`, both end in a panic. -/
theorem setOverrides_short_response_panics_witness :
    setOverrides ⟨some (.float 100), none⟩ ⟨[.err], []⟩ = .panic ∧
    setOverrides ⟨some (.float 100), none⟩ ⟨[.ok "AC", .ok "%"], []⟩ = .panic := by
  constructor
  · exact (setOverrides_short_response_panics 100 [] []).1 none
  · exact (setOverrides_short_response_panics 100 [] []).2.1 none "AC" (.ok "%")
      (by decide)

/-! ### Claim C10: the unguarded status slice bound -/

/-- C10 overstates the panic region by one character: the nominal response
`SC=0009` contains `=` at index 2 and no `{`, and its length 7 is less than
2+6, so the claim predicts a panic there — but `getStatus` decodes it
successfully (the slice `resp[3:7]` ends exactly at the end of the string). -/
theorem getStatusParse_no_panic_at_nominal :
    strIndex "SC=0009".data '=' = some 2 ∧
    strIndex "SC=0009".data '{' = none ∧
    "SC=0009".data.length < 2 + 6 ∧
    getStatusParse "SC=0009".data = .value (.ok [0, 9]) :=
  ⟨rfl, rfl, by norm_num, rfl⟩

/-- C10 (amended): for a response containing `=` at index `i` and no `{`,
`getStatus` panics exactly when the length is less than `i + 5`, while
`getBufferStatus` guards its analogous slice with an explicit length check
and returns an error (not a panic) on its short responses. -/
theorem getStatus_panic_iff (resp : List Char) (i : Nat)
    (heq : strIndex resp '=' = some i) (hbr : strIndex resp '{' = none) :
    (getStatusParse resp = .panic ↔ resp.length < i + 5) ∧
    (resp.length < i + 3 → getBufferParse resp = .value (0, [.badRespLength])) := by
  constructor
  · constructor
    · intro hp
      by_contra hlen
      push_neg at hlen
      unfold getStatusParse at hp
      simp only [heq, hbr] at hp
      rw [if_pos (show i + 1 ≤ i + 5 ∧ i + 5 ≤ resp.length from ⟨by omega, hlen⟩)] at hp
      cases hh : hexDecodeStr ((resp.drop (i + 1)).take (i + 5 - (i + 1))) with
      | none => simp only [hh] at hp; exact absurd hp (by simp)
      | some val =>
        simp only [hh] at hp
        split_ifs at hp
    · intro hlen
      unfold getStatusParse
      simp only [heq, hbr]
      rw [if_neg (show ¬(i + 1 ≤ i + 5 ∧ i + 5 ≤ resp.length) by omega)]
  · intro hlen
    unfold getBufferParse
    simp only [heq, hbr]
    rw [if_pos (show i + 3 > resp.length by omega)]

/-- Witness for C10's amended theorem: `SC=0` (length 4 < 2+5) panics in
`getStatus`, while the analogous short `BS=0` (length 4 < 2+3) makes
`getBufferStatus` return an error. -/
theorem getStatus_panic_iff_witness :
    getStatusParse "SC=0".data = .panic ∧
    getBufferParse "BS=0".data = .value (0, [.badRespLength]) := by
  constructor
  · exact (getStatus_panic_iff "SC=0".data 2 (by decide) (by decide)).1.mpr (by decide)
  · exact (getStatus_panic_iff "BS=0".data 2 (by decide) (by decide)).2 (by decide)

/-! ### Claim C5: signed decode in `Position` -/

/-- A parse accepted by `strconv.ParseUint(_, 16, 32)` fits in 32 bits. -/
theorem parseUintHex32_lt (s : List Char) (u : Nat)
    (h : parseUintHex32 s = some u) : u < 2 ^ 32 := by
  unfold parseUintHex32 at h
  split at h
  · exact absurd h (by simp)
  · rename_i n heq
    split at h
    · rename_i hlt
      injection h with h'
      omega
    · exact absurd h (by simp)

/-- C5: when the `IP` payload after `=` parses as an unsigned 32-bit hex
value `u`, `Position` reinterprets `u` as a signed 32-bit two's-complement
step count — the value congruent to `u` modulo `2^32` lying in
`[-2^31, 2^31)` — before dividing by steps-per-revolution; in particular the
raw step count `0xFFFFFFFF` yields `-1/stepsPerRev` revolutions. -/
theorem Position_signed_decode (m : Motor) (resp : String) (i u : Nat)
    (rest : List Reply) (tr : List String)
    (heq : strIndex resp.data '=' = some i)
    (hparse : parseUintHex32 (resp.data.drop (i + 1)) = some u) :
    ((Position m ⟨.ok resp :: rest, tr⟩).1 =
      .ok ((toInt32 u : ℚ) / (m.stepsPerRev : ℚ))) ∧
    ((toInt32 u) % 2 ^ 32 = (u : ℤ) % 2 ^ 32 ∧
      -(2 ^ 31) ≤ toInt32 u ∧ toInt32 u < 2 ^ 31) ∧
    ((Position m ⟨[.ok "IP=FFFFFFFF"], []⟩).1 =
      .ok ((-1 : ℚ) / (m.stepsPerRev : ℚ))) := by
  have hu := parseUintHex32_lt _ _ hparse
  refine ⟨?_, ?_, ?_⟩
  · unfold Position sendScripted
    dsimp only
    unfold positionParse
    simp only [heq, hparse]
  · unfold toInt32
    by_cases hlt : u < 2 ^ 31
    · rw [if_pos hlt]
      refine ⟨rfl, ?_, ?_⟩ <;> omega
    · rw [if_neg hlt]
      push_neg at hlt
      refine ⟨by omega, by omega, by omega⟩
  · unfold Position sendScripted
    dsimp only
    unfold positionParse
    have h1 : strIndex "IP=FFFFFFFF".data '=' = some 2 := rfl
    have h2 : parseUintHex32 ("IP=FFFFFFFF".data.drop (2 + 1)) = some 4294967295 := rfl
    simp only [h1, h2]
    have h3 : toInt32 4294967295 = -1 := by decide
    rw [h3]
    norm_num

/-- Witness for C5 at the nominal request: steps-per-rev 200, response
`IP=FFFFFFFF`: the position is `-1/200` revolutions. -/
theorem Position_signed_decode_witness :
    (Position ⟨200, ⟨0, 0⟩, ⟨0, 0⟩, ⟨0, 0⟩⟩ ⟨[.ok "IP=FFFFFFFF"], []⟩).1 =
      .ok ((-1 : ℚ) / 200) := by
  have h := (Position_signed_decode ⟨200, ⟨0, 0⟩, ⟨0, 0⟩, ⟨0, 0⟩⟩ "IP=FFFFFFFF" 2
    4294967295 [] [] (by decide) (by decide)).2.2
  simpa using h

/-! ### Claim C6: negative-rpm normalization in `GoFor` -/

/-- With nonnegative configured bounds, `Bound` maps a nonnegative value to
a nonnegative value. -/
theorem limits_Bound_nonneg (l : limits) (v : ℚ) (hmin : 0 ≤ l.min)
    (hmax : 0 ≤ l.max) (hv : 0 ≤ v) : 0 ≤ l.Bound v := by
  unfold limits.Bound
  split_ifs with h1 h2 h3
  · exact hv
  · exact hmin
  · exact hmax
  · exact hv

/-- C6: a `GoFor` with negative rpm negates both the rpm and the distance
before configuring the move, so it behaves exactly like `GoFor` with `|rpm|`
and `-revolutions` and hands `configuredMove` the positive rpm `-rpm`
together with the flipped distance `-revolutions` (the direction is carried
by the sign of the `DI` step count `ratTrunc (-revolutions * stepsPerRev)`),
and — with the nonnegative rpm bounds the configuration validation
guarantees — the velocity value stored on the wire with `VE`,
`Bound (-rpm) / 60`, is nonnegative. -/
theorem GoFor_negative_rpm (m : Motor) (rpm pos : ℚ) (extra : Extras)
    (cancelled : Nat → Bool) (st : CommState) (hneg : rpm < 0) :
    (GoFor m rpm pos extra cancelled st = GoFor m (-rpm) (-pos) extra cancelled st) ∧
    (GoFor m rpm pos extra cancelled st =
      configuredMove m "FL" (-pos) (-rpm) extra cancelled st) ∧
    (0 ≤ m.rpmLimits.min → 0 ≤ m.rpmLimits.max →
      0 ≤ m.rpmLimits.Bound (-rpm) / 60) := by
  have hpos : ¬ (-rpm < 0) := by linarith
  refine ⟨?_, ?_, fun hmin hmax => ?_⟩
  · unfold GoFor
    rw [if_pos hneg, if_neg hpos]
  · unfold GoFor
    rw [if_pos hneg]
  · exact div_nonneg (limits_Bound_nonneg _ _ hmin hmax (by linarith)) (by norm_num)

/-- Witness for C6 at rpm `-60`, distance `1`, rpm limits `(0, 100)`: the
call equals `GoFor` with `60` and `-1`, and the `VE` value is nonnegative. -/
theorem GoFor_negative_rpm_witness :
    (GoFor ⟨200, ⟨0, 0⟩, ⟨0, 0⟩, ⟨0, 100⟩⟩ (-60) 1 ⟨none, none⟩ (fun _ => false) ⟨[], []⟩ =
      GoFor ⟨200, ⟨0, 0⟩, ⟨0, 0⟩, ⟨0, 100⟩⟩ 60 (-1) ⟨none, none⟩ (fun _ => false) ⟨[], []⟩) ∧
    0 ≤ limits.Bound ⟨0, 100⟩ 60 / 60 := by
  have h := GoFor_negative_rpm ⟨200, ⟨0, 0⟩, ⟨0, 0⟩, ⟨0, 100⟩⟩ (-60) 1 ⟨none, none⟩
    (fun _ => false) ⟨[], []⟩ (by norm_num)
  refine ⟨?_, ?_⟩
  · have h1 := h.1
    norm_num at h1
    exact h1
  · have h3 := h.2.2 (by norm_num) (by norm_num)
    norm_num at h3 ⊢
    exact h3

/-! ### Claim C3: the completion condition of the wait loop

The loop consumes the script in `BS`-reply/`SC`-reply pairs; the following
decode functions state what one poll pair must contain for the loop to read
a buffer depth and a moving bit from it. -/

/-- The buffer depth the loop extracts from one `BS` reply, when it extracts
one without error or panic. -/
def decodeBufferReply (r : Reply) : Option Int :=
  match r with
  | .err => none
  | .ok s =>
    match getBufferParse s.data with
    | .value (b, []) => some b
    | _ => none

/-- The moving bit the loop extracts from one `SC` reply, when it extracts
one without error or panic. -/
def decodeMovingReply (r : Reply) : Option Bool :=
  match r with
  | .err => none
  | .ok s =>
    match getStatusParse s.data with
    | .value (.ok status) =>
      if status.length ≠ 2 then none else some (movingBit status)
    | _ => none

/-- The device script corresponding to a list of `BS`/`SC` poll-reply pairs. -/
def pollScript : List (Reply × Reply) → List Reply
  | [] => []
  | p :: ps => p.1 :: p.2 :: pollScript ps

/-- A poll pair on which the loop reports completion: buffer depth 63 and
moving bit clear. -/
def pollCompletes (p : Reply × Reply) : Prop :=
  decodeBufferReply p.1 = some 63 ∧ decodeMovingReply p.2 = some false

/-- A poll pair on which the loop keeps polling: both reads decode, but not
to the completed combination. -/
def pollProceeds (p : Reply × Reply) : Prop :=
  (∃ b, decodeBufferReply p.1 = some b) ∧
  (∃ mv, decodeMovingReply p.2 = some mv) ∧ ¬ pollCompletes p

/-- Some poll pair completes, and every earlier pair proceeds. -/
def completesWithin (polls : List (Reply × Reply)) : Prop :=
  ∃ n, ∃ hn : n < polls.length, pollCompletes polls[n] ∧
    ∀ j, ∀ hj : j < n, pollProceeds (polls.get (Fin.mk j (Nat.lt_trans hj hn)))

/-- A decoded `BS` reply is an `ok` reply whose payload parses cleanly. -/
theorem decodeBufferReply_some (r : Reply) (b : Int)
    (h : decodeBufferReply r = some b) :
    ∃ s, r = .ok s ∧ getBufferParse s.data = .value (b, []) := by
  cases r with
  | err => exact absurd h (by simp [decodeBufferReply])
  | ok s =>
    refine ⟨s, rfl, ?_⟩
    simp only [decodeBufferReply] at h
    split at h
    · rename_i heq
      injection h with h'
      rw [heq, h']
    · exact absurd h (by simp)

/-- A decoded `SC` reply is an `ok` reply whose payload parses to a 2-byte
status whose moving bit is the decoded value. -/
theorem decodeMovingReply_some (r : Reply) (mv : Bool)
    (h : decodeMovingReply r = some mv) :
    ∃ s status, r = .ok s ∧ getStatusParse s.data = .value (.ok status) ∧
      status.length = 2 ∧ movingBit status = mv := by
  cases r with
  | err => exact absurd h (by simp [decodeMovingReply])
  | ok s =>
    simp only [decodeMovingReply] at h
    split at h
    · rename_i status heq
      by_cases hl : status.length = 2
      · rw [if_neg (by simp [hl])] at h
        injection h with h'
        exact ⟨s, status, rfl, heq, hl, h'⟩
      · rw [if_pos hl] at h
        exact absurd h (by simp)
    · exact absurd h (by simp)

/-- `isBufferEmpty` on a scripted transport-error reply. -/
theorem isBufferEmpty_cons_err (S : List Reply) (tr : List String) :
    isBufferEmpty ⟨.err :: S, tr⟩ =
      .value ((false, [.transport]), ⟨S, tr ++ ["BS"]⟩) := rfl

/-- `isBufferEmpty` on a scripted payload reply. -/
theorem isBufferEmpty_cons_ok (s : String) (S : List Reply) (tr : List String) :
    isBufferEmpty ⟨.ok s :: S, tr⟩ =
      match getBufferParse s.data with
      | .panic => .panic
      | .value (b, e) => .value ((decide (b = 63), e), ⟨S, tr ++ ["BS"]⟩) := by
  unfold isBufferEmpty getBufferStatusScripted sendScripted
  dsimp only
  cases hp : getBufferParse s.data with
  | panic => simp only [hp]
  | value r =>
    obtain ⟨b, e⟩ := r
    simp only [hp]

/-- `IsMoving` on a scripted transport-error reply. -/
theorem IsMoving_cons_err (S : List Reply) (tr : List String) :
    IsMoving ⟨.err :: S, tr⟩ =
      .value ((false, [.transport]), ⟨S, tr ++ ["SC"]⟩) := rfl

/-- `IsMoving` on a scripted payload reply. -/
theorem IsMoving_cons_ok (s : String) (S : List Reply) (tr : List String) :
    IsMoving ⟨.ok s :: S, tr⟩ =
      match getStatusParse s.data with
      | .panic => .panic
      | .value (.error e) => .value ((false, [e]), ⟨S, tr ++ ["SC"]⟩)
      | .value (.ok status) =>
        if status.length ≠ 2 then .value ((false, [.statusLength]), ⟨S, tr ++ ["SC"]⟩)
        else .value ((movingBit status, []), ⟨S, tr ++ ["SC"]⟩) := by
  unfold IsMoving getStatusScripted sendScripted
  dsimp only
  cases hp : getStatusParse s.data with
  | panic => simp only [hp]
  | value r =>
    cases r with
    | error e => simp only [hp]
    | ok status => simp only [hp]

/-- One loop iteration on a poll pair whose two reads decode: it completes
exactly on depth 63 with the moving bit clear, and otherwise polls on. -/
theorem wait_step_decoded (r1 r2 : Reply) (b : Int) (mv : Bool) (S : List Reply)
    (tr : List String) (k : Nat)
    (h1 : decodeBufferReply r1 = some b) (h2 : decodeMovingReply r2 = some mv) :
    waitForMoveCommandToComplete (fun _ => false) k ⟨r1 :: r2 :: S, tr⟩ =
      if b = 63 ∧ mv = false then .value ([], ⟨S, tr ++ ["BS", "SC"]⟩)
      else waitForMoveCommandToComplete (fun _ => false) (k + 1) ⟨S, tr ++ ["BS", "SC"]⟩ := by
  obtain ⟨s1, hr1, hp1⟩ := decodeBufferReply_some r1 b h1
  obtain ⟨s2, status, hr2, hp2, hlen, hmov⟩ := decodeMovingReply_some r2 mv h2
  subst hr1; subst hr2
  rw [waitForMoveCommandToComplete]
  simp only [Bool.false_eq_true, if_false]
  rw [isBufferEmpty_cons_ok, hp1]
  dsimp only
  rw [IsMoving_cons_ok, hp2]
  dsimp only
  rw [if_neg (by simp [hlen])]
  dsimp only
  rw [hmov]
  have hiff : (decide (b = 63) = true ∧ ¬ mv = true) ↔ (b = 63 ∧ mv = false) := by
    simp
  rw [if_congr hiff rfl rfl]
  by_cases hc : b = 63 ∧ mv = false
  · rw [if_pos hc, if_pos hc]
    simp
  · rw [if_neg hc, if_neg hc]
    rw [List.append_assoc]
    rfl

/-- One loop iteration whose `BS` read does not decode cleanly never reports
completion. -/
theorem wait_step_buf_undecoded (r1 r2 : Reply) (S : List Reply)
    (tr : List String) (k : Nat) (h : decodeBufferReply r1 = none) :
    ∀ st', waitForMoveCommandToComplete (fun _ => false) k ⟨r1 :: r2 :: S, tr⟩ ≠
      .value ([], st') := by
  intro st'
  rw [waitForMoveCommandToComplete]
  simp only [Bool.false_eq_true, if_false]
  cases r1 with
  | err =>
    rw [isBufferEmpty_cons_err]
    simp
  | ok s1 =>
    rw [isBufferEmpty_cons_ok]
    cases hp : getBufferParse s1.data with
    | panic => simp
    | value r =>
      obtain ⟨b, e⟩ := r
      cases e with
      | nil =>
        have hsome : decodeBufferReply (.ok s1) = some b := by
          simp [decodeBufferReply, hp]
        rw [h] at hsome
        exact absurd hsome (by simp)
      | cons e0 es => simp

/-- One loop iteration whose `SC` read does not decode cleanly never reports
completion. -/
theorem wait_step_moving_undecoded (r1 r2 : Reply) (b : Int) (S : List Reply)
    (tr : List String) (k : Nat)
    (h1 : decodeBufferReply r1 = some b) (h2 : decodeMovingReply r2 = none) :
    ∀ st', waitForMoveCommandToComplete (fun _ => false) k ⟨r1 :: r2 :: S, tr⟩ ≠
      .value ([], st') := by
  intro st'
  obtain ⟨s1, hr1, hp1⟩ := decodeBufferReply_some r1 b h1
  subst hr1
  rw [waitForMoveCommandToComplete]
  simp only [Bool.false_eq_true, if_false]
  rw [isBufferEmpty_cons_ok, hp1]
  dsimp only
  cases r2 with
  | err =>
    rw [IsMoving_cons_err]
    simp
  | ok s2 =>
    rw [IsMoving_cons_ok]
    cases hp : getStatusParse s2.data with
    | panic => simp
    | value r =>
      cases r with
      | error e => simp
      | ok status =>
        by_cases hl : status.length = 2
        · have hsome : decodeMovingReply (.ok s2) = some (movingBit status) := by
            simp [decodeMovingReply, hp, hl]
          rw [h2] at hsome
          exact absurd hsome (by simp)
        · dsimp only
          rw [if_pos hl]
          simp

/-- The loop on an exhausted script fails with a transport error. -/
theorem wait_nil (tr : List String) (k : Nat) :
    waitForMoveCommandToComplete (fun _ => false) k ⟨[], tr⟩ =
      .value ([.transport], ⟨[], tr ++ ["BS"]⟩) := by
  rw [waitForMoveCommandToComplete]
  simp only [Bool.false_eq_true, if_false]
  have h : isBufferEmpty ⟨[], tr⟩ = .value ((false, [.transport]), ⟨[], tr ++ ["BS"]⟩) := rfl
  rw [h]

/-- A pair whose reads neither complete nor proceed stops any chance of
completion from the head of the list. -/
theorem not_completesWithin_cons (p : Reply × Reply) (ps : List (Reply × Reply))
    (hnc : ¬ pollCompletes p) (hnp : ¬ pollProceeds p) :
    ¬ completesWithin (p :: ps) := by
  rintro ⟨n, hn, hcomp, hprev⟩
  cases n with
  | zero => exact hnc (by simpa using hcomp)
  | succ m => exact hnp (by simpa using hprev 0 (Nat.succ_pos m))

/-- Shifting `completesWithin` across a proceeding head pair. -/
theorem completesWithin_cons_iff (p : Reply × Reply) (ps : List (Reply × Reply))
    (hp : pollProceeds p) (hnc : ¬ pollCompletes p) :
    completesWithin (p :: ps) ↔ completesWithin ps := by
  constructor
  · rintro ⟨n, hn, hcomp, hprev⟩
    cases n with
    | zero => exact absurd (by simpa using hcomp) hnc
    | succ m =>
      refine ⟨m, by simpa using hn, by simpa using hcomp, fun j hj => ?_⟩
      have := hprev (j + 1) (by omega)
      simpa using this
  · rintro ⟨n, hn, hcomp, hprev⟩
    refine ⟨n + 1, by simpa using hn, by simpa using hcomp, fun j hj => ?_⟩
    cases j with
    | zero => simpa using hp
    | succ i =>
      have := hprev i (by omega)
      simpa using this

/-- An undecodable `BS` read neither completes nor proceeds. -/
theorem not_poll_of_buf_none (p : Reply × Reply) (h : decodeBufferReply p.1 = none) :
    ¬ pollCompletes p ∧ ¬ pollProceeds p := by
  constructor
  · rintro ⟨h1, -⟩
    rw [h] at h1
    exact absurd h1 (by simp)
  · rintro ⟨⟨b, hb⟩, -, -⟩
    rw [h] at hb
    exact absurd hb (by simp)

/-- An undecodable `SC` read neither completes nor proceeds. -/
theorem not_poll_of_moving_none (p : Reply × Reply) (h : decodeMovingReply p.2 = none) :
    ¬ pollCompletes p ∧ ¬ pollProceeds p := by
  constructor
  · rintro ⟨-, h2⟩
    rw [h] at h2
    exact absurd h2 (by simp)
  · rintro ⟨-, ⟨mv, hm⟩, -⟩
    rw [h] at hm
    exact absurd hm (by simp)

/-- C3: the wait loop (run without cancellation against the scripted
`BS`/`SC` poll pairs) returns success if and only if some poll reads buffer
depth 63 together with a clear moving bit, every earlier poll having read a
decodable non-complete pair — it never reports completion when only one of
the two conditions holds; and `isBufferEmpty` is true exactly when
`getBufferStatus` returns 63. -/
theorem waitForMoveCommandToComplete_success_iff (polls : List (Reply × Reply))
    (tr : List String) (k : Nat) :
    ((∃ st', waitForMoveCommandToComplete (fun _ => false) k ⟨pollScript polls, tr⟩ =
        .value ([], st')) ↔ completesWithin polls) ∧
    (∀ st bv errs st1,
      getBufferStatusScripted st = .value ((bv, errs), st1) →
      (isBufferEmpty st = .value ((true, errs), st1) ↔ bv = 63)) := by
  constructor
  · induction polls generalizing tr k with
    | nil =>
      simp only [pollScript]
      constructor
      · rintro ⟨st', hst⟩
        rw [wait_nil] at hst
        exact absurd hst (by simp)
      · rintro ⟨n, hn, -⟩
        simp at hn
    | cons p ps ih =>
      obtain ⟨r1, r2⟩ := p
      simp only [pollScript]
      cases hb : decodeBufferReply r1 with
      | none =>
        constructor
        · rintro ⟨st', hst⟩
          exact absurd hst (wait_step_buf_undecoded r1 r2 _ tr k hb st')
        · intro hcw
          obtain ⟨hnc, hnp⟩ := not_poll_of_buf_none (r1, r2) hb
          exact absurd hcw (not_completesWithin_cons _ _ hnc hnp)
      | some b =>
        cases hm : decodeMovingReply r2 with
        | none =>
          constructor
          · rintro ⟨st', hst⟩
            exact absurd hst (wait_step_moving_undecoded r1 r2 b _ tr k hb hm st')
          · intro hcw
            obtain ⟨hnc, hnp⟩ := not_poll_of_moving_none (r1, r2) hm
            exact absurd hcw (not_completesWithin_cons _ _ hnc hnp)
        | some mv =>
          rw [wait_step_decoded r1 r2 b mv _ tr k hb hm]
          by_cases hcond : b = 63 ∧ mv = false
          · rw [if_pos hcond]
            constructor
            · intro _
              refine ⟨0, by simp, ?_, fun j hj => absurd hj (by omega)⟩
              simp only [List.getElem_cons_zero]
              exact ⟨by rw [hb, hcond.1], by rw [hm, hcond.2]⟩
            · intro _
              exact ⟨_, rfl⟩
          · rw [if_neg hcond]
            have hproc : pollProceeds (r1, r2) := by
              refine ⟨⟨b, hb⟩, ⟨mv, hm⟩, ?_⟩
              rintro ⟨h1, h2⟩
              rw [hb] at h1
              rw [hm] at h2
              injection h1 with h1'
              injection h2 with h2'
              exact hcond ⟨h1', h2'⟩
            rw [completesWithin_cons_iff _ _ hproc hproc.2.2]
            exact ih (tr ++ ["BS", "SC"]) (k + 1)
  · intro st bv errs st1 hg
    unfold isBufferEmpty
    rw [hg]
    dsimp only
    constructor
    · intro h
      simp only [PanicOr.value.injEq, Prod.mk.injEq] at h
      exact of_decide_eq_true h.1.1
    · intro h
      subst h
      simp

/-- Witness for C3: a first poll reading depth 63 but moving bit set keeps
waiting, and a second poll reading 63 with the bit clear succeeds — while
the same single not-yet-stopped poll alone never completes; and
`isBufferEmpty` on a scripted `BS=63` reply is true. -/
theorem waitForMoveCommandToComplete_success_iff_witness :
    (∃ st', waitForMoveCommandToComplete (fun _ => false) 0
      ⟨pollScript [(.ok "BS=63\x7b", .ok "SC=0010\x7b"), (.ok "BS=63\x7b", .ok "SC=0000\x7b")], []⟩ =
        .value ([], st')) ∧
    ¬ (∃ st', waitForMoveCommandToComplete (fun _ => false) 0
      ⟨pollScript [(.ok "BS=63\x7b", .ok "SC=0010\x7b")], []⟩ = .value ([], st')) ∧
    (isBufferEmpty ⟨[.ok "BS=63\x7b"], []⟩ = .value ((true, []), ⟨[], ["BS"]⟩)) := by
  refine ⟨?_, ?_, ?_⟩
  · refine (waitForMoveCommandToComplete_success_iff
      [(.ok "BS=63\x7b", .ok "SC=0010\x7b"), (.ok "BS=63\x7b", .ok "SC=0000\x7b")] [] 0).1.mpr ?_
    refine ⟨1, by norm_num, ?_, ?_⟩
    · simp only [List.getElem_cons_succ, List.getElem_cons_zero]
      exact ⟨by decide, by decide⟩
    · intro j hj
      have hj0 : j = 0 := by omega
      subst hj0
      simp only [List.get_eq_getElem, List.getElem_cons_zero]
      refine ⟨⟨63, by decide⟩, ⟨true, by decide⟩, ?_⟩
      rintro ⟨-, h2⟩
      exact absurd h2 (by decide)
  · intro hex
    have := (waitForMoveCommandToComplete_success_iff
      [(.ok "BS=63\x7b", .ok "SC=0010\x7b")] [] 0).1.mp hex
    obtain ⟨n, hn, hcomp, -⟩ := this
    have hn0 : n = 0 := by
      simp only [List.length_singleton] at hn
      omega
    subst hn0
    simp only [List.getElem_cons_zero] at hcomp
    exact absurd hcomp.2 (by decide)
  · have := ((waitForMoveCommandToComplete_success_iff [] [] 0).2
      ⟨[.ok "BS=63\x7b"], []⟩ 63 [] ⟨[], ["BS"]⟩ (by decide)).mpr rfl
    exact this

/-! ### Claim C1: the error paths of `configuredMove` skip `restore` -/

/-- C1 names behaviour the code does not have: `configuredMove` returns
early — without invoking `restore` — when the `DI` send fails, although the
override snapshot was captured successfully.  Concretely: `GoFor` against a
device that acknowledges the `SJ` stop, answers the `AC` query with
`AC=50.000`, acknowledges the `AC100.000` override store, and then fails on
`DI200`, returns only the transport error; the command trace ends at `DI200`
and never contains the write-back `AC50.000`, and the snapshot capture alone
(last conjunct) had succeeded with old acceleration `50`. -/
theorem goFor_DI_error_skips_restore :
    (GoFor ⟨200, ⟨0, 0⟩, ⟨0, 0⟩, ⟨0, 0⟩⟩ 60 1 ⟨some (.float 100), none⟩ (fun _ => false)
        ⟨[.ok "OK", .ok "AC=50.000", .ok "%", .err], []⟩ =
      .value ([.transport], ⟨[], ["SJ", "AC", "AC100.000", "DI200"]⟩)) ∧
    (formatStore "AC" 50 ∉ ["SJ", "AC", "AC100.000", "DI200"]) ∧
    (setOverrides (boundExtras ⟨200, ⟨0, 0⟩, ⟨0, 0⟩, ⟨0, 0⟩⟩ ⟨some (.float 100), none⟩)
        ⟨[.ok "AC=50.000", .ok "%", .err], []⟩ =
      .value ((⟨50, 0⟩, []), ⟨[.err], ["AC", "AC100.000"]⟩)) := by
  refine ⟨?_, by decide, ?_⟩
  · with_unfolding_all decide
  · with_unfolding_all decide
